import Mathlib

/-!
Shallow embedding of the core of the `core-server` repository:
the hybrid retrieval scorer (`src/modules/rag/service.py`) and the
cancellable ingestion pipeline (`src/modules/upload/service.py`,
`src/modules/upload/background_tasks.py`).

Numeric signals are modelled over `ℚ` (the Python code computes over
floats; the claims under scrutiny are about the algebraic shape of the
computation, not about rounding).  External collaborators (the STT
transcoder, the Okt morphological analyzer, the Azure embedder, the
BM25 library primitive) are modelled as oracle inputs, matching §6 of
the specification which declares them external interfaces.
-/

namespace Core

/-! ## Hybrid scorer (src/modules/rag/service.py, `search_documents`) -/

/-- The `1e-6` constant added to the denominator in
`(arr - arr.min()) / (arr.max() - arr.min() + 1e-6)`. -/
def EPS : ℚ := 1 / 1000000

/-- Value of `arr.min()` for a numpy array modelled as a list
(the code only ever calls it on non-empty arrays; the `[]` case is a
junk default). -/
def minList : List ℚ → ℚ
  | [] => 0
  | x :: xs => xs.foldl min x

/-- Value of `arr.max()` for a numpy array modelled as a list. -/
def maxList : List ℚ → ℚ
  | [] => 0
  | x :: xs => xs.foldl max x

/-- The elementwise operation of
`(arr - arr.min()) / (arr.max() - arr.min() + 1e-6)` applied to one
entry `x` of the array `xs`. -/
def normVal (xs : List ℚ) (x : ℚ) : ℚ :=
  (x - minList xs) / (maxList xs - minList xs + EPS)

/-- The min–max normalization line of `search_documents`:
`scores = (scores - scores.min()) / (scores.max() - scores.min() + 1e-6)`. -/
def normalize (xs : List ℚ) : List ℚ := xs.map (normVal xs)

/-- Model of `np.dot` on two vectors. -/
def dot (u v : List ℚ) : ℚ := (List.zipWith (· * ·) u v).sum

/-- A row of the `rag_documents` table (src/models/rag.py `RAGDocument`)
as read by `search_documents`. -/
structure RAGDoc where
  id : ℕ
  title : String
  content : String
  tokenized_text : String
  title_embedding : List ℚ
  content_embedding : List ℚ
deriving DecidableEq, Inhabited

/-- One entry of the result list built at the end of `search_documents`. -/
structure SearchResult where
  id : ℕ
  title : String
  content : String
  score : ℚ
  bm25_score : ℚ
  content_similarity : ℚ
  title_similarity : ℚ
deriving DecidableEq

/-- Insert index `i` into an index list that is already sorted
ascending by value, placing `i` after every index of equal value
(stable insertion; `v.getD j 0` is the value at index `j`). -/
def insertRanked (v : List ℚ) (i : ℕ) : List ℕ → List ℕ
  | [] => [i]
  | j :: rest =>
      if v.getD i 0 < v.getD j 0 then i :: j :: rest else j :: insertRanked v i rest

/-- Model of `np.argsort(v)`: a deterministic refinement of numpy's
documented contract — the indices `0 .. v.length - 1` in ascending
order of their value in `v`.  The call site uses the default
`kind='quicksort'` (introsort), which numpy documents as *not*
stable, so the order of equal values is unspecified in general; this
model resolves ties in ascending index order.  Program-level
conclusions drawn from it therefore use only tie-order-independent
facts (ascending sortedness, being a permutation of the index range),
except where the model's tie order provably coincides with the
program's — numpy falls back to insertion sort, which is stable, below
its small-array cutoff, covering the two-document counterexample
evaluated here. -/
def argsort (v : List ℚ) : List ℕ :=
  (List.range v.length).foldl (fun acc i => insertRanked v i acc) []

/-- Python slice `xs[-k:]`: for `k ≥ 1` the last `min k xs.length`
elements; for `k = 0` the slice `xs[-0:] = xs[0:]` is the whole list. -/
def lastK (k : ℕ) (xs : List ℕ) : List ℕ :=
  if k = 0 then xs else xs.drop (xs.length - k)

/-- The elementwise weighted sum
`bm25_weight * bm25_scores + content_vector_weight * content_similarities
 + title_vector_weight * title_similarities`
of the three normalized signal arrays (service.py lines 316-320). -/
def combinedScores (docs : List RAGDoc) (bm25Raw : List ℚ)
    (query_embedding : List ℚ) (w1 w2 w3 : ℚ) : List ℚ :=
  List.zipWith (· + ·)
    (List.zipWith (· + ·)
      ((normalize bm25Raw).map fun x => w1 * x)
      ((normalize (docs.map fun d => dot query_embedding d.content_embedding)).map
        fun x => w2 * x))
    ((normalize (docs.map fun d => dot query_embedding d.title_embedding)).map
      fun x => w3 * x)

/-- Model of `RAGService.search_documents` (src/modules/rag/service.py lines 254-338).
`bm25Raw` is the array returned by the external BM25 primitive
`bm25.get_scores(query_tokens)` (one raw score per document) and
`query_embedding` the vector returned by the external embedder; both
are oracle inputs per §6 of the specification.  Document indexing
`documents[idx]` is modelled with `getD` (the indices produced by
`argsort` are always in range, see `mem_argsort_lt`). -/
def search_documents (docs : List RAGDoc) (bm25Raw : List ℚ)
    (query_embedding : List ℚ) (top_k : ℕ)
    (bm25_weight content_vector_weight title_vector_weight : ℚ) :
    List SearchResult :=
  if docs.isEmpty then []
  else
    let combined_scores :=
      combinedScores docs bm25Raw query_embedding
        bm25_weight content_vector_weight title_vector_weight
    let top_indices := (lastK top_k (argsort combined_scores)).reverse
    top_indices.map fun idx =>
      let doc := docs.getD idx default
      { id := doc.id
        title := doc.title
        content := doc.content
        score := combined_scores.getD idx 0
        bm25_score := (normalize bm25Raw).getD idx 0
        content_similarity :=
          (normalize (docs.map fun d => dot query_embedding d.content_embedding)).getD idx 0
        title_similarity :=
          (normalize (docs.map fun d => dot query_embedding d.title_embedding)).getD idx 0 }

/-- Python `text.split()`: split on whitespace, dropping empty pieces. -/
def whitespaceTokens (text : String) : List String :=
  (text.split fun c => c.isWhitespace).filter fun t => t ≠ ""

/-- Model of `RAGService.tokenize_text` (src/modules/rag/service.py lines 33-50).
The Okt tokenizer calls `self.tokenizer.nouns(text)` and
`self.tokenizer.verbs(text)` are external; each is modelled as an
`Except` oracle.  If either raises, the `except` branch falls back to
`text.split()`. -/
def tokenize_text (nouns verbs : Except String (List String))
    (text : String) : List String :=
  match nouns, verbs with
  | Except.ok ns, Except.ok vs => ns ++ vs
  | _, _ => whitespaceTokens text

/-! ## Ingestion pipeline (src/modules/upload/) -/

/-- Job status values used in `background_tasks_status[...]["status"]`:
`"pending"`, `"processing"`, `"completed"`, `"failed"`. -/
inductive Status where
  | pending
  | processing
  | completed
  | failed
deriving DecidableEq

/-- One entry of the global `background_tasks_status` dictionary
(src/modules/upload/service.py line 15): the record for one job id. -/
structure JobRecord where
  status : Status
  progress : ℕ
  start_time : Option ℕ
  last_update : ℕ
  log_messages : List String
deriving DecidableEq

/-- A row written into `rag_documents` by `process_embeddings`
(src/modules/upload/background_tasks.py lines 66-79). -/
structure StoredDoc where
  title : String
  content : String
  tokenized_text : String
  content_embedding : List ℚ
  title_embedding : List ℚ
deriving DecidableEq

/-- The `videos` row for the job (title and file path saved at
submission, transcript written by `update_video_transcript`). -/
structure VideoRow where
  title : String
  file_path : String
  transcript : Option String
deriving DecidableEq

/-- Observable state touched by one ingestion job: its
`background_tasks_status` record (together with the history of every
update made to it, for the trace invariants), the global
`cancelled_tasks` set, the job's video row, the `rag_documents`
store, and an abstract clock standing for `time.time()`.  The global
dictionary is keyed by job id and each pipeline task reads and
writes only its own key, so the state is modelled per job. -/
structure SysState where
  job : JobRecord
  history : List JobRecord
  cancelled : List ℕ
  video : VideoRow
  rag_store : List StoredDoc
  clock : ℕ
deriving DecidableEq

/-- Part-of-speech tags produced by `okt.pos`. -/
inductive POS where
  | noun
  | verb
  | adjective
  | adverb
  | josa
  | punctuation
  | other
deriving DecidableEq

/-- Oracle outcomes of the external calls made during one job
(§6 of the specification): the STT transcoder, the Okt morphological
analyzer applied to the transcript, and the two Azure embedding
calls.  `Except.error e` models the call raising with message `e`. -/
structure Env where
  transcribe : Except String String
  okt_pos : Except String (List (String × POS))
  embed_content : Except String (List ℚ)
  embed_title : Except String (List ℚ)

/-- Model of `preprocess_korean_text` (src/modules/upload/background_tasks.py
lines 24-35): keep nouns, verbs, adjectives and adverbs, drop
single-character tokens, join with spaces.  The function has no
`try/except`: a failure of `okt.pos` propagates to the caller, which
the `Except` return models. -/
def preprocess_korean_text (okt_pos : Except String (List (String × POS))) :
    Except String String :=
  match okt_pos with
  | Except.error e => Except.error e
  | Except.ok pos =>
      let tokens :=
        (pos.filter fun wp =>
          wp.2 = POS.noun ∨ wp.2 = POS.verb ∨ wp.2 = POS.adjective ∨
            wp.2 = POS.adverb).map Prod.fst
      let tokens := tokens.filter fun t => t.length > 1
      Except.ok (String.intercalate " " tokens)

/-- Model of `process_embeddings` (src/modules/upload/background_tasks.py lines
38-87): tokenize, embed content, embed title, then insert one
`RAGDocument` row.  Any exception reaches the outer `except`, which
logs and returns `False`; on success it returns `True`.  The returned
`Bool` is that value. -/
def process_embeddings (env : Env) (title content : String) (s : SysState) :
    SysState × Bool :=
  match preprocess_korean_text env.okt_pos with
  | Except.error _ => (s, false)
  | Except.ok tokenized_text =>
      match env.embed_content with
      | Except.error _ => (s, false)
      | Except.ok content_embedding =>
          match env.embed_title with
          | Except.error _ => (s, false)
          | Except.ok title_embedding =>
              ({ s with
                  rag_store := s.rag_store ++
                    [{ title := title, content := content,
                       tokenized_text := tokenized_text,
                       content_embedding := content_embedding,
                       title_embedding := title_embedding }] }, true)

/-- Apply one assignment to the job's `background_tasks_status` record,
recording the updated record in the history trace. -/
def updJob (g : JobRecord → JobRecord) (s : SysState) : SysState :=
  { s with job := g s.job, history := s.history ++ [g s.job] }

/-- Statement `background_tasks_status[video_id]["log_messages"].append(m)`. -/
def appendLog (m : String) : SysState → SysState :=
  updJob fun j => { j with log_messages := j.log_messages ++ [m] }

/-- Statement `background_tasks_status[video_id]["status"] = st`. -/
def setStatus (st : Status) : SysState → SysState :=
  updJob fun j => { j with status := st }

/-- Statement `background_tasks_status[video_id]["progress"] = p`. -/
def setProgress (p : ℕ) : SysState → SysState :=
  updJob fun j => { j with progress := p }

/-- Statement `background_tasks_status[video_id]["start_time"] = time.time()`. -/
def setStartTime (s : SysState) : SysState :=
  updJob (fun j => { j with start_time := some s.clock })
    { s with clock := s.clock + 1 }

/-- Statement `background_tasks_status[video_id]["last_update"] = time.time()`. -/
def setLastUpdate (s : SysState) : SysState :=
  updJob (fun j => { j with last_update := s.clock })
    { s with clock := s.clock + 1 }

/-- Log line appended at submission (service.py line 48). -/
def queuedMsg : String := "작업이 대기열에 추가됨"

/-- Log line appended by `cancel_background_task` (service.py line 193). -/
def cancelRequestedMsg : String := "사용자에 의한 취소 요청됨"

/-- Message of the `ValueError` raised at a cancellation check
(service.py lines 74, 85, 98). -/
def cancelledCauseMsg : String := "작업이 사용자에 의해 취소되었습니다."

/-- Log line `f"[STT] 비디오 처리 시작 (ID: {video_id})"`. -/
def startMsg (vid : ℕ) : String :=
  "[STT] 비디오 처리 시작 (ID: " ++ toString vid ++ ")"

/-- Log line `f"[STT] 파일 크기: {file_size_mb:.2f} MB"` (the size itself is an
external filesystem fact, abstracted). -/
def sizeMsg : String := "[STT] 파일 크기"

/-- Log line `"[STT] 오디오 추출 및 변환 처리 시작..."`. -/
def sttStartMsg : String := "[STT] 오디오 추출 및 변환 처리 시작..."

/-- Log line `f"[STT] 텍스트 변환 완료: {len(full_text)} 문자"`. -/
def textDoneMsg (full_text : String) : String :=
  "[STT] 텍스트 변환 완료: " ++ toString full_text.length ++ " 문자"

/-- Log line `"[Embedding] 임베딩 처리 시작..."`. -/
def embedStartMsg : String := "[Embedding] 임베딩 처리 시작..."

/-- Log line `f"[STT] 비디오 처리 완료 (ID: {video_id})"`. -/
def doneMsg (vid : ℕ) : String :=
  "[STT] 비디오 처리 완료 (ID: " ++ toString vid ++ ")"

/-- Log line `f"[STT] 비디오 처리 실패 (ID: {video_id}): {str(e)}"`. -/
def failMsg (vid : ℕ) (cause : String) : String :=
  "[STT] 비디오 처리 실패 (ID: " ++ toString vid ++ "): " ++ cause

/-- Model of `UploadService.cancel_background_task` (service.py lines 177-200)
for a job id present in `background_tasks_status`: rejected
(returns `success=False`) when the job is already completed or
failed; otherwise adds the id to `cancelled_tasks`, appends a log
entry, and returns `success=True`. -/
def cancel_background_task (vid : ℕ) (s : SysState) : SysState × Bool :=
  if s.job.status = Status.completed ∨ s.job.status = Status.failed then
    (s, false)
  else
    (appendLog cancelRequestedMsg { s with cancelled := s.cancelled.insert vid },
      true)

/-- A point between two statements of the pipeline task at which a
concurrent `cancel_background_task` call may land.  `creq` is the
set of points at which such a call arrives. -/
def maybeCancel (vid : ℕ) (creq : List ℕ) (k : ℕ) (s : SysState) : SysState :=
  if k ∈ creq then (cancel_background_task vid s).1 else s

/-- Model of `UploadRepository.update_video_transcript` (repository.py lines
58-72): write the transcript into the job's video row. -/
def update_video_transcript (full_text : String) (s : SysState) : SysState :=
  { s with video := { s.video with transcript := some full_text } }

/-- The `except` handler of `_process_video_transcript` (service.py
lines 140-149): mark failed, append the error message, stamp
`last_update`, and drop the id from `cancelled_tasks` if present
(`List.erase` of a non-member is the identity, matching the guarded
`remove`). -/
def failJob (vid : ℕ) (cause : String) (s : SysState) : SysState :=
  let s := setStatus Status.failed s
  let s := appendLog (failMsg vid cause) s
  let s := setLastUpdate s
  { s with cancelled := s.cancelled.erase vid }

/-- Model of `UploadService._process_video_transcript` (service.py lines
58-149), one statement per step, with a potential concurrent
cancellation request (`maybeCancel`) between every two statements.
A `raise` jumps to `failJob`; `process_embeddings` never raises
(it catches everything), and its returned `Bool` is discarded,
exactly as `asyncio.run(process_embeddings(...))` is at line 123. -/
def run_pipeline (env : Env) (vid : ℕ) (creq : List ℕ) (s0 : SysState) :
    SysState :=
  let s := maybeCancel vid creq 0 s0
  let s := setStatus Status.processing s
  let s := maybeCancel vid creq 1 s
  let s := setStartTime s
  let s := maybeCancel vid creq 2 s
  let s := appendLog (startMsg vid) s
  let s := maybeCancel vid creq 3 s
  if vid ∈ s.cancelled then failJob vid cancelledCauseMsg s else
  let s := maybeCancel vid creq 4 s
  let s := appendLog sizeMsg s
  let s := maybeCancel vid creq 5 s
  let s := setProgress 10 s
  let s := maybeCancel vid creq 6 s
  if vid ∈ s.cancelled then failJob vid cancelledCauseMsg s else
  let s := maybeCancel vid creq 7 s
  let s := appendLog sttStartMsg s
  let s := maybeCancel vid creq 8 s
  let s := setProgress 20 s
  let s := maybeCancel vid creq 9 s
  match env.transcribe with
  | Except.error e => failJob vid e s
  | Except.ok full_text =>
    let s := maybeCancel vid creq 10 s
    if vid ∈ s.cancelled then failJob vid cancelledCauseMsg s else
    let s := maybeCancel vid creq 11 s
    let s := appendLog (textDoneMsg full_text) s
    let s := maybeCancel vid creq 12 s
    let s := setProgress 50 s
    let s := maybeCancel vid creq 13 s
    let s := update_video_transcript full_text s
    let s := maybeCancel vid creq 14 s
    let s := appendLog embedStartMsg s
    let s := maybeCancel vid creq 15 s
    let s := setProgress 60 s
    let s := maybeCancel vid creq 16 s
    let s := (process_embeddings env s.video.title full_text s).1
    let s := maybeCancel vid creq 17 s
    let s := appendLog (doneMsg vid) s
    let s := maybeCancel vid creq 18 s
    let s := setStatus Status.completed s
    let s := maybeCancel vid creq 19 s
    let s := setProgress 100 s
    let s := maybeCancel vid creq 20 s
    let s := setLastUpdate s
    let s := maybeCancel vid creq 21 s
    { s with cancelled := s.cancelled.erase vid }

/-- The state right after `process_video_upload` (service.py lines
41-49) registered the job: status pending, progress 0, one queued
log line; the video row holds the submitted title and path; the
job id is not in `cancelled_tasks` (it is freshly allocated). -/
def initState (title file_path : String) : SysState :=
  { job := { status := Status.pending, progress := 0, start_time := none,
             last_update := 0, log_messages := [queuedMsg] }
    history := [{ status := Status.pending, progress := 0, start_time := none,
                  last_update := 0, log_messages := [queuedMsg] }]
    cancelled := []
    video := { title := title, file_path := file_path, transcript := none }
    rag_store := []
    clock := 1 }

/-- The transition relation the specification claims for consecutive
updates of one job record: either the status is unchanged and the
progress does not decrease, or the status advances
pending → processing or processing → completed/failed. -/
def okTransition (a b : JobRecord) : Prop :=
  (b.status = a.status ∧ a.progress ≤ b.progress) ∨
  (a.status = Status.pending ∧ b.status = Status.processing) ∨
  (a.status = Status.processing ∧
    (b.status = Status.completed ∨ b.status = Status.failed))

/-- Rank of a status along the allowed transition order. -/
def statusRank : Status → ℕ
  | Status.pending => 0
  | Status.processing => 1
  | Status.completed => 2
  | Status.failed => 2

/-- Strict order in which `argsort` emits indices: ascending by value,
ties ascending by index. -/
def RankLT (v : List ℚ) (i j : ℕ) : Prop :=
  v.getD i 0 < v.getD j 0 ∨ (v.getD i 0 = v.getD j 0 ∧ i < j)

/-- Invariant of the job-record trace: the history is chained by
`okTransition` and ends at the current record. -/
def JobInv (s : SysState) : Prop :=
  List.Chain' okTransition s.history ∧ s.history.getLast? = some s.job

/-- Tracking predicate used to walk the pipeline: the trace invariant
together with the current status and progress of the job record. -/
def Track (st : Status) (p : ℕ) (s : SysState) : Prop :=
  JobInv s ∧ s.job.status = st ∧ s.job.progress = p

/-! ## Concrete sample inputs used by witnesses and counterexamples -/

/-- An environment in which every external call succeeds. -/
def envHappy : Env :=
  { transcribe := Except.ok "전체 텍스트입니다"
    okt_pos := Except.ok [("텍스트", POS.noun), ("입니다", POS.verb)]
    embed_content := Except.ok [1, 2]
    embed_title := Except.ok [3, 4] }

/-- An environment in which the Embedder raises on the content call. -/
def envEmbedFail : Env :=
  { envHappy with embed_content := Except.error "embedding failed" }

/-- An environment in which `okt.pos` raises during tokenization. -/
def envTokFail : Env :=
  { envHappy with okt_pos := Except.error "okt 오류" }

/-- Two documents with identical embeddings (every signal ties). -/
def tiedDocs : List RAGDoc :=
  [{ id := 1, title := "a", content := "a", tokenized_text := "a",
     title_embedding := [1], content_embedding := [1] },
   { id := 2, title := "b", content := "b", tokenized_text := "b",
     title_embedding := [1], content_embedding := [1] }]

/-! ## Lemmas about the min–max normalization -/

theorem foldl_min_le (xs : List ℚ) (a : ℚ) : xs.foldl min a ≤ a := by
  induction xs generalizing a with
  | nil => exact le_refl a
  | cons x xs ih => exact le_trans (ih (min a x)) (min_le_left a x)

theorem foldl_min_le_mem (xs : List ℚ) (a x : ℚ) (hx : x ∈ xs) :
    xs.foldl min a ≤ x := by
  induction xs generalizing a with
  | nil => cases hx
  | cons y ys ih =>
      rcases List.mem_cons.mp hx with h | h
      · subst h
        exact le_trans (foldl_min_le ys (min a x)) (min_le_right a x)
      · exact ih (min a y) h

theorem le_foldl_max (xs : List ℚ) (a : ℚ) : a ≤ xs.foldl max a := by
  induction xs generalizing a with
  | nil => exact le_refl a
  | cons x xs ih => exact le_trans (le_max_left a x) (ih (max a x))

theorem mem_le_foldl_max (xs : List ℚ) (a x : ℚ) (hx : x ∈ xs) :
    x ≤ xs.foldl max a := by
  induction xs generalizing a with
  | nil => cases hx
  | cons y ys ih =>
      rcases List.mem_cons.mp hx with h | h
      · subst h
        exact le_trans (le_max_right a x) (le_foldl_max ys (max a x))
      · exact ih (max a y) h

theorem minList_le {xs : List ℚ} {x : ℚ} (hx : x ∈ xs) : minList xs ≤ x := by
  cases xs with
  | nil => cases hx
  | cons y ys =>
      rcases List.mem_cons.mp hx with h | h
      · subst h; exact foldl_min_le ys x
      · exact foldl_min_le_mem ys y x h

theorem le_maxList {xs : List ℚ} {x : ℚ} (hx : x ∈ xs) : x ≤ maxList xs := by
  cases xs with
  | nil => cases hx
  | cons y ys =>
      rcases List.mem_cons.mp hx with h | h
      · subst h; exact le_foldl_max ys x
      · exact mem_le_foldl_max ys y x h

theorem EPS_pos : (0 : ℚ) < EPS := by norm_num [EPS]

/-! ## C3 -/

/-- C3, counterexample.  The claim states the normalization formula is
`(raw − min) / (max − min)` so that the maximum raw value maps to
exactly `1`.  The code divides by `max − min + 1e-6`: on the raw
scores `[0, 1]` the maximum normalizes to `1000000/1000001 ≠ 1`. -/
theorem normalize_max_not_one_cx :
    normalize [0, 1] = [0, 1000000 / 1000001] ∧
    normVal [0, 1] (maxList [0, 1]) ≠ 1 ∧
    minList [0, 1] < maxList [0, 1] := by
  refine ⟨?_, ?_, ?_⟩ <;> norm_num [normalize, normVal, minList, maxList, EPS]

/-- C3 (amended): each raw signal is normalized elementwise as
`norm = (raw − min) / (max − min + 1e-6)`; whenever the signal has at
least two distinct raw values (`min < max`), every normalized value
lies in `[0, 1)`, the minimum raw value maps to exactly `0`, and the
maximum raw value maps to `(max − min) / (max − min + 1e-6)`, which is
strictly below `1`. -/
theorem normalize_minmax_bounds (xs : List ℚ) (h : minList xs < maxList xs) :
    (∀ y ∈ normalize xs, 0 ≤ y ∧ y < 1) ∧
    normVal xs (minList xs) = 0 ∧
    normVal xs (maxList xs) =
      (maxList xs - minList xs) / (maxList xs - minList xs + EPS) ∧
    normVal xs (maxList xs) < 1 := by
  have he := EPS_pos
  have hd : 0 < maxList xs - minList xs + EPS := by linarith
  have hmax1 : normVal xs (maxList xs) < 1 := by
    rw [normVal, div_lt_one hd]; linarith
  refine ⟨?_, ?_, rfl, hmax1⟩
  · intro y hy
    rcases List.mem_map.mp hy with ⟨x, hx, rfl⟩
    have h1 := minList_le hx
    have h2 := le_maxList hx
    constructor
    · exact div_nonneg (by linarith) hd.le
    · rw [normVal, div_lt_one hd]; linarith
  · rw [normVal, sub_self, zero_div]

/-- Witness for `normalize_minmax_bounds` at the raw scores `[0, 1]`. -/
theorem normalize_minmax_bounds_witness :
    minList [0, 1] < maxList [0, 1] ∧
    ((∀ y ∈ normalize [0, 1], 0 ≤ y ∧ y < 1) ∧
      normVal [0, 1] (minList [0, 1]) = 0 ∧
      normVal [0, 1] (maxList [0, 1]) =
        (maxList [0, 1] - minList [0, 1]) /
          (maxList [0, 1] - minList [0, 1] + EPS) ∧
      normVal [0, 1] (maxList [0, 1]) < 1) :=
  ⟨by norm_num [minList, maxList],
   normalize_minmax_bounds [0, 1] (by norm_num [minList, maxList])⟩

/-! ## C7 -/

/-- C7: when all raw values of a signal coincide (`max = min`), every
normalized value is `0`, and the denominator `max − min + 1e-6` of the
normalization is non-zero, so no division by zero occurs. -/
theorem normalize_all_equal_zero (xs : List ℚ) (h : maxList xs = minList xs) :
    (∀ y ∈ normalize xs, y = 0) ∧ maxList xs - minList xs + EPS ≠ 0 := by
  constructor
  · intro y hy
    rcases List.mem_map.mp hy with ⟨x, hx, rfl⟩
    have h1 := minList_le hx
    have h2 := le_maxList hx
    have hx0 : x = minList xs := le_antisymm (h ▸ h2) h1
    rw [normVal, hx0, sub_self, zero_div]
  · rw [h]; norm_num [EPS]

/-- Witness for `normalize_all_equal_zero` at the constant score set
`[5, 5, 5]`. -/
theorem normalize_all_equal_zero_witness :
    maxList [5, 5, 5] = minList [5, 5, 5] ∧
    ((∀ y ∈ normalize [5, 5, 5], y = 0) ∧
      maxList [5, 5, 5] - minList [5, 5, 5] + EPS ≠ 0) :=
  ⟨by norm_num [minList, maxList],
   normalize_all_equal_zero [5, 5, 5] (by norm_num [minList, maxList])⟩

/-! ## C8 -/

/-- C8: for every query (any token/embedding oracle values), every
`top_k` and any weights, `search_documents` on an empty corpus returns
the empty result list, without error (the guard
`if not documents: return []` fires before any scoring work). -/
theorem search_empty_corpus (bm25Raw query_embedding : List ℚ) (top_k : ℕ)
    (w1 w2 w3 : ℚ) :
    search_documents [] bm25Raw query_embedding top_k w1 w2 w3 = [] := rfl

/-! ## Lemmas about argsort and the ranking -/

theorem length_insertRanked (v : List ℚ) (i : ℕ) (l : List ℕ) :
    (insertRanked v i l).length = l.length + 1 := by
  induction l with
  | nil => rfl
  | cons j rest ih =>
      rw [insertRanked]
      split
      · rfl
      · simp [ih]

theorem mem_insertRanked {v : List ℚ} {i x : ℕ} :
    ∀ {l : List ℕ}, x ∈ insertRanked v i l ↔ x = i ∨ x ∈ l := by
  intro l
  induction l with
  | nil => simp [insertRanked]
  | cons j rest ih =>
      rw [insertRanked]
      split
      · simp [List.mem_cons, or_comm, or_assoc, or_left_comm]
      · simp only [List.mem_cons, ih]
        tauto

theorem pairwise_insertRanked {v : List ℚ} {i : ℕ} :
    ∀ {l : List ℕ}, l.Pairwise (RankLT v) → (∀ j ∈ l, j < i) →
      (insertRanked v i l).Pairwise (RankLT v) := by
  intro l
  induction l with
  | nil => intro _ _; simp [insertRanked]
  | cons j rest ih =>
      intro hp hb
      rcases List.pairwise_cons.mp hp with ⟨hj, hrest⟩
      rw [insertRanked]
      split
      · rename_i hvi
        refine List.pairwise_cons.mpr ⟨?_, hp⟩
        intro k hk
        rcases List.mem_cons.mp hk with rfl | hk
        · exact Or.inl hvi
        · rcases hj k hk with h | ⟨he, _⟩
          · exact Or.inl (lt_trans hvi h)
          · exact Or.inl (he ▸ hvi)
      · rename_i hvi
        push_neg at hvi
        refine List.pairwise_cons.mpr
          ⟨?_, ih hrest fun a ha => hb a (List.mem_cons.mpr (Or.inr ha))⟩
        intro k hk
        rcases mem_insertRanked.mp hk with rfl | hk
        · rcases lt_or_eq_of_le hvi with h | h
          · exact Or.inl h
          · exact Or.inr ⟨h, hb j (List.mem_cons_self j rest)⟩
        · exact hj k hk

theorem argsort_spec (v : List ℚ) :
    (argsort v).Pairwise (RankLT v) ∧
    (∀ j ∈ argsort v, j < v.length) ∧
    (argsort v).length = v.length := by
  have key : ∀ n : ℕ,
      ((List.range n).foldl (fun acc i => insertRanked v i acc) []).Pairwise (RankLT v) ∧
      (∀ j ∈ (List.range n).foldl (fun acc i => insertRanked v i acc) [], j < n) ∧
      ((List.range n).foldl (fun acc i => insertRanked v i acc) []).length = n := by
    intro n
    induction n with
    | zero => exact ⟨List.Pairwise.nil, by simp, rfl⟩
    | succ n ih =>
        rw [List.range_succ, List.foldl_append, List.foldl_cons, List.foldl_nil]
        refine ⟨pairwise_insertRanked ih.1 ih.2.1, ?_, ?_⟩
        · intro j hj
          rcases mem_insertRanked.mp hj with rfl | hj
          · omega
          · exact lt_trans (ih.2.1 j hj) (Nat.lt_succ_self n)
        · rw [length_insertRanked, ih.2.2]
  exact key v.length

theorem mem_argsort_lt {v : List ℚ} {j : ℕ} (hj : j ∈ argsort v) :
    j < v.length := (argsort_spec v).2.1 j hj

theorem lastK_sublist (k : ℕ) (xs : List ℕ) : (lastK k xs).Sublist xs := by
  rw [lastK]
  split
  · exact List.Sublist.refl xs
  · exact List.drop_sublist _ xs

theorem length_lastK (k : ℕ) (xs : List ℕ) (hk : 1 ≤ k) :
    (lastK k xs).length = min k xs.length := by
  rw [lastK, if_neg (by omega), List.length_drop]
  omega

theorem length_combinedScores (docs : List RAGDoc) (bm25Raw qe : List ℚ)
    (w1 w2 w3 : ℚ) (hlen : bm25Raw.length = docs.length) :
    (combinedScores docs bm25Raw qe w1 w2 w3).length = docs.length := by
  simp [combinedScores, normalize, hlen]

theorem combinedScores_le_length (docs : List RAGDoc) (bm25Raw qe : List ℚ)
    (w1 w2 w3 : ℚ) :
    (combinedScores docs bm25Raw qe w1 w2 w3).length ≤ docs.length := by
  simp only [combinedScores, normalize, List.length_zipWith, List.length_map]
  omega

/-! ## C10 -/

/-- C10: for a non-empty corpus of `n` documents and any `top_k ≥ 1`,
`search_documents` returns exactly `min top_k n` results (the BM25
primitive returns one raw score per document, hence
`bm25Raw.length = docs.length`); a `top_k` exceeding the corpus size
returns all `n` documents rather than failing. -/
theorem search_result_count (docs : List RAGDoc) (bm25Raw qe : List ℚ)
    (top_k : ℕ) (w1 w2 w3 : ℚ) (hne : docs ≠ []) (hk : 1 ≤ top_k)
    (hlen : bm25Raw.length = docs.length) :
    (search_documents docs bm25Raw qe top_k w1 w2 w3).length =
      min top_k docs.length := by
  rw [search_documents, if_neg (by simp [hne])]
  rw [List.length_map, List.length_reverse, length_lastK _ _ hk,
    (argsort_spec _).2.2, length_combinedScores _ _ _ _ _ _ hlen]

/-- Witness for `search_result_count`: a two-document corpus queried
with `top_k = 5` returns both documents. -/
theorem search_result_count_witness :
    tiedDocs ≠ [] ∧ 1 ≤ 5 ∧ ([0, 0] : List ℚ).length = tiedDocs.length ∧
    (search_documents tiedDocs [0, 0] [0] 5 (4/10) (4/10) (2/10)).length =
      min 5 tiedDocs.length :=
  ⟨by decide, by decide, by decide,
    search_result_count tiedDocs [0, 0] [0] 5 (4/10) (4/10) (2/10)
      (by decide) (by decide) (by decide)⟩

/-! ## C4 -/

/-- C4, counterexample.  The claim states that results with equal
fused scores are ordered by ascending document id.  On a corpus of two
documents (ids 1 and 2) whose three signals all tie, all fused scores
are equal, yet `np.argsort(...)[ -top_k: ][::-1]` emits the documents
in descending id order `[2, 1]`, not ascending `[1, 2]`.  (A length-2
array is far below numpy's small-array cutoff, where introsort runs
plain insertion sort, so on this input the model's tie order is the
program's actual, deterministic behaviour.) -/
theorem tie_order_descending_cx :
    ((search_documents tiedDocs [0, 0] [0] 2 (4/10) (4/10) (2/10)).map
        (fun r => r.score) = [0, 0]) ∧
    ((search_documents tiedDocs [0, 0] [0] 2 (4/10) (4/10) (2/10)).map
        (fun r => r.id) = [2, 1]) ∧
    [2, 1] ≠ [1, 2] := by
  refine ⟨?_, ?_, by decide⟩ <;>
    norm_num [search_documents, combinedScores, normalize, normVal, minList,
      maxList, dot, EPS, argsort, insertRanked, lastK, tiedDocs,
      List.range_succ]

/-- C4 (amended): `search_documents` sorts results in non-increasing
order of fused score — a fact independent of how `np.argsort` orders
equal keys, so it holds of the program under any tie resolution of its
(unstable, deterministic) quicksort.  The claimed ascending-document-id
tie-break does not exist: ties are returned in whatever order the sort
leaves them (descending id on the two-document tied corpus of the
counterexample, unspecified in general).  Repeated calls on an
identical corpus snapshot, query signals and weights return the same
ordered sequence, the ranking being a function of those inputs
alone. -/
theorem search_sorted_descending (docs : List RAGDoc) (bm25Raw qe : List ℚ)
    (top_k : ℕ) (w1 w2 w3 : ℚ) :
    (search_documents docs bm25Raw qe top_k w1 w2 w3).Pairwise
      (fun r s => s.score ≤ r.score) := by
  rw [search_documents]
  split
  · exact List.Pairwise.nil
  · rw [List.pairwise_map]
    set v := combinedScores docs bm25Raw qe w1 w2 w3 with hv
    have hp : ((lastK top_k (argsort v)).reverse).Pairwise fun i j => RankLT v j i := by
      rw [List.pairwise_reverse]
      exact List.Pairwise.sublist (lastK_sublist top_k (argsort v)) (argsort_spec v).1
    refine hp.imp ?_
    intro a b hr
    rcases hr with h | ⟨he, _⟩
    · exact le_of_lt h
    · exact le_of_eq he

/-! ## C5 -/

/-- C5: for a known job id, `cancel_background_task` returns
`success = False` exactly when the job record's status is already
completed or failed; otherwise it adds the id to `cancelled_tasks`,
appends the cancellation log entry to the job record, and returns
`success = True`. -/
theorem cancel_request_spec (vid : ℕ) (s : SysState) :
    ((cancel_background_task vid s).2 = false ↔
      s.job.status = Status.completed ∨ s.job.status = Status.failed) ∧
    (¬(s.job.status = Status.completed ∨ s.job.status = Status.failed) →
      (cancel_background_task vid s).1.cancelled = s.cancelled.insert vid ∧
      (cancel_background_task vid s).1.job.log_messages =
        s.job.log_messages ++ [cancelRequestedMsg] ∧
      (cancel_background_task vid s).2 = true) := by
  rw [cancel_background_task]
  by_cases h : s.job.status = Status.completed ∨ s.job.status = Status.failed
  · rw [if_pos h]
    exact ⟨by simp [h], fun hc => absurd h hc⟩
  · rw [if_neg h]
    exact ⟨by simp [h], fun _ => ⟨rfl, rfl, rfl⟩⟩

/-- Witness for `cancel_request_spec` on a freshly submitted (pending)
job. -/
theorem cancel_request_spec_witness :
    ¬((initState "제목" "uploads/v.mp4").job.status = Status.completed ∨
        (initState "제목" "uploads/v.mp4").job.status = Status.failed) ∧
    ((cancel_background_task 7 (initState "제목" "uploads/v.mp4")).1.cancelled =
        (initState "제목" "uploads/v.mp4").cancelled.insert 7 ∧
      (cancel_background_task 7 (initState "제목" "uploads/v.mp4")).1.job.log_messages =
        (initState "제목" "uploads/v.mp4").job.log_messages ++ [cancelRequestedMsg] ∧
      (cancel_background_task 7 (initState "제목" "uploads/v.mp4")).2 = true) :=
  ⟨by decide, (cancel_request_spec 7 (initState "제목" "uploads/v.mp4")).2 (by decide)⟩

/-! ## C9 -/

/-- C9, counterexample.  The claim states that the ingestion
pipeline's Tokenize stage also falls back to whitespace splitting when
the linguistic tokenizer fails.  `preprocess_korean_text` has no
`try/except`: an `okt.pos` failure propagates, and
`process_embeddings` then returns `False` having written nothing —
no whitespace-token document is produced. -/
theorem pipeline_tokenize_no_fallback_cx :
    preprocess_korean_text (Except.error "okt 오류") = Except.error "okt 오류" ∧
    process_embeddings envTokFail "제목" "본문 내용" (initState "제목" "f") =
      ((initState "제목" "f"), false) :=
  ⟨rfl, rfl⟩

/-- C9 (amended): in the scorer, `tokenize_text` falls back to naive
whitespace splitting whenever either Okt call fails, so query/content
tokenization always returns a token sequence; in the ingestion
pipeline's Tokenize stage there is no such fallback — an internal
tokenizer failure propagates to `process_embeddings`' outer handler,
which returns `False` and leaves the state (in particular the
document store) unchanged. -/
theorem tokenizer_fallback_spec :
    (∀ (e : String) (verbs : Except String (List String)) (text : String),
        tokenize_text (Except.error e) verbs text = whitespaceTokens text) ∧
    (∀ (nouns : Except String (List String)) (e : String) (text : String),
        tokenize_text nouns (Except.error e) text = whitespaceTokens text) ∧
    (∀ (env : Env) (title content : String) (s : SysState) (e : String),
        env.okt_pos = Except.error e →
        process_embeddings env title content s = (s, false)) := by
  refine ⟨fun e verbs text => ?_, fun nouns e text => ?_, fun env t c s e h => ?_⟩
  · cases verbs <;> rfl
  · cases nouns <;> rfl
  · rw [process_embeddings, h]; rfl

/-- Witness for `tokenizer_fallback_spec`: a failing Okt call on the
scorer path yields whitespace tokens, and a failing Okt call on the
pipeline path makes `process_embeddings` return `False` with the
state unchanged. -/
theorem tokenizer_fallback_spec_witness :
    tokenize_text (Except.error "형태소 오류") (Except.ok ["갑니다"]) "hello world" =
      whitespaceTokens "hello world" ∧
    envTokFail.okt_pos = Except.error "okt 오류" ∧
    process_embeddings envTokFail "제목" "본문" (initState "제목" "f") =
      ((initState "제목" "f"), false) :=
  ⟨tokenizer_fallback_spec.1 "형태소 오류" (Except.ok ["갑니다"]) "hello world",
   rfl,
   tokenizer_fallback_spec.2.2 envTokFail "제목" "본문" (initState "제목" "f")
     "okt 오류" rfl⟩

/-! ## C1 -/

/-- C1: the claim states that an Embedder failure during the Embed
stage marks the job Failed with the cause as the last log line and the
job never reaches Completed.  The code violates this: the inner
handler of `process_embeddings` re-raises the embedding failure, but
the outer handler converts it to `return False`, and
`_process_video_transcript` discards that return value
(`asyncio.run(process_embeddings(...))`, line 123) — so the job is
marked completed with progress 100, the last log line is the
completion message, and no document is stored.  Evaluation of the
embedding at the failing input (Embedder raising on the content
call, everything else succeeding, no cancellation). -/
theorem embed_failure_reaches_completed :
    (run_pipeline envEmbedFail 7 [] (initState "제목" "uploads/v.mp4")).job.status =
      Status.completed ∧
    (run_pipeline envEmbedFail 7 [] (initState "제목" "uploads/v.mp4")).job.progress = 100 ∧
    (run_pipeline envEmbedFail 7 [] (initState "제목" "uploads/v.mp4")).rag_store = [] ∧
    (run_pipeline envEmbedFail 7 [] (initState "제목" "uploads/v.mp4")).job.log_messages.getLast? =
      some (doneMsg 7) :=
  ⟨rfl, rfl, rfl, rfl⟩

/-! ## C2 -/

/-- C2, counterexample.  The claim states the pipeline checks the
CancellationSet before *every* stage transition and stops when the id
is present.  A cancellation request accepted right before the Embed
stage (point 16, after the transcript was persisted) is logged and
adds the id to the set, yet no later check exists: the run writes the
document and ends Completed. -/
theorem cancel_before_embed_ignored_cx :
    cancelRequestedMsg ∈
      (run_pipeline envHappy 7 [16] (initState "제목" "f")).job.log_messages ∧
    (run_pipeline envHappy 7 [16] (initState "제목" "f")).job.status =
      Status.completed ∧
    (run_pipeline envHappy 7 [16] (initState "제목" "f")).rag_store.length = 1 := by
  refine ⟨by decide, rfl, rfl⟩

/-- C2 (amended): the pipeline checks the CancellationSet at exactly
three points, all during Prepare/Transcribe (at the start of Prepare,
before Transcribe, and after Transcribe before the transcript is
persisted) — not before every stage transition.  A cancellation
request that lands anywhere up to the third check (points 0–10, i.e.
during Prepare or Transcribe) is seen by one of these checks: the job
ends Failed with the cancellation reason, the id is removed from the
CancellationSet, and nothing is written to the store — no document
row and no transcript.  (Requests landing after the third check are
never seen: see the counterexample.) -/
theorem cancel_early_fails_job (env : Env) (vid : ℕ) (p : ℕ)
    (title fp : String) (hp : p ≤ 10) :
    (run_pipeline env vid [p] (initState title fp)).job.status = Status.failed ∧
    (run_pipeline env vid [p] (initState title fp)).rag_store = [] ∧
    (run_pipeline env vid [p] (initState title fp)).video.transcript = none ∧
    vid ∉ (run_pipeline env vid [p] (initState title fp)).cancelled := by
  rcases htr : env.transcribe with e | full_text <;>
    interval_cases p <;>
      simp [run_pipeline, maybeCancel, cancel_background_task, failJob,
        setStatus, setProgress, setStartTime, setLastUpdate, appendLog,
        updJob, initState, htr, update_video_transcript,
        List.insert_of_not_mem, List.erase_cons_head]

/-- Witness for `cancel_early_fails_job`: a request landing at point 4
(during Prepare) on an otherwise successful run. -/
theorem cancel_early_fails_job_witness :
    4 ≤ 10 ∧
    ((run_pipeline envHappy 7 [4] (initState "제목" "f")).job.status =
        Status.failed ∧
      (run_pipeline envHappy 7 [4] (initState "제목" "f")).rag_store = [] ∧
      (run_pipeline envHappy 7 [4] (initState "제목" "f")).video.transcript =
        none ∧
      7 ∉ (run_pipeline envHappy 7 [4] (initState "제목" "f")).cancelled) :=
  ⟨by decide, cancel_early_fails_job envHappy 7 4 "제목" "f" (by decide)⟩

/-! ## Lemmas for the job-record trace invariant (C6) -/

theorem updJob_jobInv {g : JobRecord → JobRecord} {s : SysState}
    (h : JobInv s) (hok : okTransition s.job (g s.job)) :
    JobInv (updJob g s) := by
  obtain ⟨hc, hl⟩ := h
  constructor
  · show List.Chain' okTransition (s.history ++ [g s.job])
    refine List.chain'_append.mpr ⟨hc, List.chain'_singleton _, ?_⟩
    intro x hx y hy
    rw [hl] at hx
    have hx' : s.job = x := by simpa using hx
    have hy' : g s.job = y := by simpa using hy
    rw [← hx', ← hy']
    exact hok
  · show (s.history ++ [g s.job]).getLast? = some (g s.job)
    exact List.getLast?_concat _

theorem track_updJob_same {st : Status} {p : ℕ} {g : JobRecord → JobRecord}
    {s : SysState} (h : Track st p s)
    (hstat : ∀ j, (g j).status = j.status)
    (hprog : ∀ j, (g j).progress = j.progress) :
    Track st p (updJob g s) := by
  refine ⟨updJob_jobInv h.1 (Or.inl ⟨hstat s.job, le_of_eq (hprog s.job).symm⟩),
    ?_, ?_⟩
  · show (g s.job).status = st
    rw [hstat s.job]; exact h.2.1
  · show (g s.job).progress = p
    rw [hprog s.job]; exact h.2.2

theorem track_appendLog {st : Status} {p : ℕ} {s : SysState}
    (h : Track st p s) (m : String) : Track st p (appendLog m s) :=
  track_updJob_same h (fun _ => rfl) (fun _ => rfl)

theorem track_cancelled {st : Status} {p : ℕ} {s : SysState}
    (h : Track st p s) (c : List ℕ) : Track st p { s with cancelled := c } :=
  ⟨h.1, h.2.1, h.2.2⟩

theorem track_update_video_transcript {st : Status} {p : ℕ} {s : SysState}
    (h : Track st p s) (full_text : String) :
    Track st p (update_video_transcript full_text s) :=
  ⟨h.1, h.2.1, h.2.2⟩

theorem track_clock {st : Status} {p : ℕ} {s : SysState}
    (h : Track st p s) (c : ℕ) : Track st p { s with clock := c } :=
  ⟨h.1, h.2.1, h.2.2⟩

theorem track_setStartTime {st : Status} {p : ℕ} {s : SysState}
    (h : Track st p s) : Track st p (setStartTime s) :=
  track_updJob_same (track_clock h _) (fun _ => rfl) (fun _ => rfl)

theorem track_setLastUpdate {st : Status} {p : ℕ} {s : SysState}
    (h : Track st p s) : Track st p (setLastUpdate s) :=
  track_updJob_same (track_clock h _) (fun _ => rfl) (fun _ => rfl)

theorem track_setProgress {st : Status} {p : ℕ} {s : SysState} (q : ℕ)
    (h : Track st p s) (hpq : p ≤ q) : Track st q (setProgress q s) := by
  refine ⟨updJob_jobInv h.1 (Or.inl ⟨rfl, ?_⟩), h.2.1, rfl⟩
  rw [h.2.2]
  exact hpq

theorem track_setStatus_processing {p : ℕ} {s : SysState}
    (h : Track Status.pending p s) :
    Track Status.processing p (setStatus Status.processing s) :=
  ⟨updJob_jobInv h.1 (Or.inr (Or.inl ⟨h.2.1, rfl⟩)), rfl, h.2.2⟩

theorem track_setStatus_completed {p : ℕ} {s : SysState}
    (h : Track Status.processing p s) :
    Track Status.completed p (setStatus Status.completed s) :=
  ⟨updJob_jobInv h.1 (Or.inr (Or.inr ⟨h.2.1, Or.inl rfl⟩)), rfl, h.2.2⟩

theorem track_setStatus_failed {p : ℕ} {s : SysState}
    (h : Track Status.processing p s) :
    Track Status.failed p (setStatus Status.failed s) :=
  ⟨updJob_jobInv h.1 (Or.inr (Or.inr ⟨h.2.1, Or.inr rfl⟩)), rfl, h.2.2⟩

theorem track_failJob {p : ℕ} {s : SysState}
    (h : Track Status.processing p s) (vid : ℕ) (cause : String) :
    Track Status.failed p (failJob vid cause s) := by
  have h1 := track_setStatus_failed h
  have h2 := track_appendLog h1 (failMsg vid cause)
  have h3 := track_setLastUpdate h2
  exact ⟨h3.1, h3.2.1, h3.2.2⟩

theorem track_maybeCancel {st : Status} {p : ℕ} {s : SysState}
    (h : Track st p s) (vid k : ℕ) (creq : List ℕ) :
    Track st p (maybeCancel vid creq k s) := by
  rw [maybeCancel]
  by_cases hk : k ∈ creq
  · rw [if_pos hk, cancel_background_task]
    by_cases hterm : s.job.status = Status.completed ∨ s.job.status = Status.failed
    · rw [if_pos hterm]
      exact h
    · rw [if_neg hterm]
      exact track_appendLog (track_cancelled h _) cancelRequestedMsg
  · rw [if_neg hk]
    exact h

theorem track_process_embeddings {st : Status} {p : ℕ} {s : SysState}
    (h : Track st p s) (env : Env) (t c : String) :
    Track st p (process_embeddings env t c s).1 := by
  rcases hm : preprocess_korean_text env.okt_pos with e | tok <;>
    rcases hc : env.embed_content with e2 | ce <;>
      rcases ht : env.embed_title with e3 | te <;>
        simp only [process_embeddings, hm, hc, ht] <;>
          exact ⟨h.1, h.2.1, h.2.2⟩

theorem track_embed_step {st : Status} {p : ℕ} {s : SysState}
    (h : Track st p s) (env : Env) (c : String) :
    Track st p (process_embeddings env s.video.title c s).1 :=
  track_process_embeddings h env s.video.title c

theorem okTransition_rank {a b : JobRecord} (h : okTransition a b) :
    statusRank a.status ≤ statusRank b.status := by
  rcases h with ⟨he, _⟩ | ⟨ha, hb⟩ | ⟨ha, h3⟩
  · simp [he]
  · simp [ha, hb, statusRank]
  · rcases h3 with hb | hb <;> simp [ha, hb, statusRank]

theorem chain_rank_mono {l : List JobRecord}
    (hc : List.Chain' okTransition l) :
    ∀ (d i : ℕ) (h : i + d < l.length),
      statusRank (l.get ⟨i, by omega⟩).status ≤
        statusRank (l.get ⟨i + d, h⟩).status := by
  intro d
  induction d with
  | zero => intro i h; exact le_refl _
  | succ d ih =>
      intro i h
      have hstep := List.chain'_iff_get.mp hc (i + d) (by omega)
      exact le_trans (ih i (by omega)) (okTransition_rank hstep)

theorem chain_progress_mono {l : List JobRecord}
    (hc : List.Chain' okTransition l) :
    ∀ (d i : ℕ) (h : i + d < l.length),
      (l.get ⟨i, by omega⟩).status = Status.processing →
      (l.get ⟨i + d, h⟩).status = Status.processing →
      (l.get ⟨i, by omega⟩).progress ≤ (l.get ⟨i + d, h⟩).progress := by
  intro d
  induction d with
  | zero => intro i h _ _; exact le_refl _
  | succ d ih =>
      intro i h hi hj
      have hstep := List.chain'_iff_get.mp hc (i + d) (by omega)
      rcases hstep with ⟨he, hp⟩ | ⟨ha, hb⟩ | ⟨ha, hb | hb⟩
      · have hmid : (l.get ⟨i + d, by omega⟩).status = Status.processing := by
          rw [← he]
          exact hj
        exact le_trans (ih i (by omega) hi hmid) hp
      · have hr := chain_rank_mono hc d i (by omega)
        rw [hi, ha] at hr
        simp [statusRank] at hr
      · have hb' : (l.get ⟨i + (d + 1), h⟩).status = Status.completed := hb
        rw [hj] at hb'
        cases hb'
      · have hb' : (l.get ⟨i + (d + 1), h⟩).status = Status.failed := hb
        rw [hj] at hb'
        cases hb'

theorem pipeline_jobInv (env : Env) (vid : ℕ) (creq : List ℕ)
    (title fp : String) :
    JobInv (run_pipeline env vid creq (initState title fp)) := by
  have t0 : Track Status.pending 0 (initState title fp) :=
    ⟨⟨List.chain'_singleton _, rfl⟩, rfl, rfl⟩
  have t1 := track_maybeCancel t0 vid 0 creq
  have t2 := track_setStatus_processing t1
  have t3 := track_maybeCancel t2 vid 1 creq
  have t4 := track_setStartTime t3
  have t5 := track_maybeCancel t4 vid 2 creq
  have t6 := track_appendLog t5 (startMsg vid)
  have t7 := track_maybeCancel t6 vid 3 creq
  have t8 := track_maybeCancel t7 vid 4 creq
  have t9 := track_appendLog t8 sizeMsg
  have t10 := track_maybeCancel t9 vid 5 creq
  have t11 := track_setProgress 10 t10 (by omega)
  have t12 := track_maybeCancel t11 vid 6 creq
  have t13 := track_maybeCancel t12 vid 7 creq
  have t14 := track_appendLog t13 sttStartMsg
  have t15 := track_maybeCancel t14 vid 8 creq
  have t16 := track_setProgress 20 t15 (by omega)
  have t17 := track_maybeCancel t16 vid 9 creq
  simp only [run_pipeline]
  split
  · exact (track_failJob t7 vid cancelledCauseMsg).1
  · split
    · exact (track_failJob t12 vid cancelledCauseMsg).1
    · split
      · exact (track_failJob t17 vid _).1
      · rename_i full_text heq
        have u1 := track_maybeCancel t17 vid 10 creq
        split
        · exact (track_failJob u1 vid cancelledCauseMsg).1
        · have u2 := track_maybeCancel u1 vid 11 creq
          have u3 := track_appendLog u2 (textDoneMsg full_text)
          have u4 := track_maybeCancel u3 vid 12 creq
          have u5 := track_setProgress 50 u4 (by omega)
          have u6 := track_maybeCancel u5 vid 13 creq
          have u7 := track_update_video_transcript u6 full_text
          have u8 := track_maybeCancel u7 vid 14 creq
          have u9 := track_appendLog u8 embedStartMsg
          have u10 := track_maybeCancel u9 vid 15 creq
          have u11 := track_setProgress 60 u10 (by omega)
          have u12 := track_maybeCancel u11 vid 16 creq
          have u13 := track_embed_step u12 env full_text
          have u14 := track_maybeCancel u13 vid 17 creq
          have u15 := track_appendLog u14 (doneMsg vid)
          have u16 := track_maybeCancel u15 vid 18 creq
          have u17 := track_setStatus_completed u16
          have u18 := track_maybeCancel u17 vid 19 creq
          have u19 := track_setProgress 100 u18 (by omega)
          have u20 := track_maybeCancel u19 vid 20 creq
          have u21 := track_setLastUpdate u20
          have u22 := track_maybeCancel u21 vid 21 creq
          exact u22.1

/-! ## C6 -/

/-- C6: over the whole sequence of job-record updates made for one
job — starting at the pending record written at submission and
through every update of the pipeline task and any concurrently
accepted cancellation requests — consecutive updates only keep the
status (without decreasing progress) or advance it
pending → processing or processing → completed/failed, never
backward; and progress is monotonically non-decreasing across all
updates whose status is processing. -/
theorem pipeline_status_progress_invariant (env : Env) (vid : ℕ)
    (creq : List ℕ) (title fp : String) :
    List.Chain' okTransition
      (run_pipeline env vid creq (initState title fp)).history ∧
    (∀ (i j : ℕ)
        (hi : i < (run_pipeline env vid creq (initState title fp)).history.length)
        (hj : j < (run_pipeline env vid creq (initState title fp)).history.length),
      i ≤ j →
      ((run_pipeline env vid creq (initState title fp)).history.get ⟨i, hi⟩).status =
        Status.processing →
      ((run_pipeline env vid creq (initState title fp)).history.get ⟨j, hj⟩).status =
        Status.processing →
      ((run_pipeline env vid creq (initState title fp)).history.get ⟨i, hi⟩).progress ≤
        ((run_pipeline env vid creq (initState title fp)).history.get ⟨j, hj⟩).progress) := by
  have hJ := pipeline_jobInv env vid creq title fp
  refine ⟨hJ.1, ?_⟩
  intro i j hi hj hij h1 h2
  obtain ⟨d, rfl⟩ : ∃ d, j = i + d := ⟨j - i, by omega⟩
  exact chain_progress_mono hJ.1 d i hj h1 h2

end Core
